import Mathlib

/-!
Verification of the version-analysis core of the `apm` Android package manager
(`apm.py`, class `AndroidPackageManager`).

The Python code is shallowly embedded: every function below mirrors the
corresponding Python method line by line.  Python strings are Lean `String`s
(lists of characters); Python's unbounded integers are `Nat`/`Int`; Python
code that can raise is embedded in `Except`/`Option`.  Character-class tests
taken from Python regexes (`\w`, `\d`, `\s`) and `str.lower()` are modelled on
ASCII characters, which is the alphabet version strings use.

Definitions named after spec contracts (prefixed `claim_` or `spec_`) are
written from the specification's words and compared with the embedded code.
-/

namespace Apm

/-- Python whitespace for `str.strip()` / `str.split()` (ASCII model):
space, tab, newline, carriage return, vertical tab, form feed. -/
def py_is_space (c : Char) : Bool :=
  c = ' ' || c = '\t' || c = '\n' || c = '\r' || c = '\x0b' || c = '\x0c'

/-- Python `str.strip()`: drop whitespace from both ends. -/
def py_strip (s : String) : String :=
  String.mk (((s.data.dropWhile py_is_space).reverse.dropWhile py_is_space).reverse)

/-- Python `str.lower()` (ASCII model): map `Char.toLower`. -/
def py_lower (s : String) : String :=
  String.mk (s.data.map Char.toLower)

/-- Python `str.split(sep)` for a one-character separator, on the character
list: always at least one piece, empty pieces kept. -/
def py_split_on (sep : Char) : List Char → List (List Char)
  | [] => [[]]
  | c :: cs =>
    let r := py_split_on sep cs
    if c = sep then [] :: r
    else (c :: r.headD []) :: r.tail

/-- Python `s.split(sep)` for a one-character separator. -/
def py_split (s : String) (sep : Char) : List String :=
  (py_split_on sep s.data).map String.mk

/-- Does `hay` start with `needle`? -/
def starts_with_chars : List Char → List Char → Bool
  | [], _ => true
  | _ :: _, [] => false
  | a :: as_, b :: bs => a = b && starts_with_chars as_ bs

/-- Does `hay` contain `needle` as a contiguous run? -/
def chars_contains (needle : List Char) : List Char → Bool
  | [] => needle.isEmpty
  | c :: rest => starts_with_chars needle (c :: rest) || chars_contains needle rest

/-- Python substring test `needle in hay`. -/
def str_contains (hay needle : String) : Bool :=
  chars_contains needle.data hay.data

/-- Python `any(c.isdigit() for c in s)` (ASCII digits). -/
def has_digit (s : String) : Bool :=
  s.data.any Char.isDigit

/-- Python regex `\w` (ASCII model): letters, digits, underscore. -/
def word_char (c : Char) : Bool :=
  c.isAlpha || c.isDigit || c = '_'

/-! ## `is_valid_version` (apm.py lines 108-131) -/

/-- The blocklist of `is_valid_version` (`invalid_patterns`, apm.py 118-122). -/
def invalid_patterns : List String :=
  ["only", "latest", "current", "version", "unknown", "null", "none",
   "description", "name", "title", "app", "package", "install",
   "download", "file", "url", "http", "www", "com", "org"]

/-- Embeds `AndroidPackageManager.is_valid_version` (apm.py 108-131).
The Python guard `not version_str or len(version_str) < 2` collapses to the
length test, since the empty string has length 0. -/
def is_valid_version (version_str : String) : Bool :=
  if version_str.length < 2 then false
  else if !(has_digit version_str) then false
  else if invalid_patterns.any (fun invalid => str_contains (py_lower version_str) invalid) then false
  else if version_str.length > 20 then false
  else true

/-! ## `normalize_version` (apm.py 133-139) -/

/-- Separator class of the regex `[-_]+` in `normalize_version`. -/
def is_sep (c : Char) : Bool := c = '-' || c = '_'

/-- Embeds `re.sub(r'[-_]+', '.', version)`: each maximal run of `-`/`_`
becomes a single `.` (the dot is emitted at the last character of a run). -/
def collapse_seps : List Char → List Char
  | [] => []
  | [c] => if is_sep c then ['.'] else [c]
  | c :: d :: rest =>
    if is_sep c then
      if is_sep d then collapse_seps (d :: rest)
      else '.' :: collapse_seps (d :: rest)
    else c :: collapse_seps (d :: rest)

/-- Embeds `AndroidPackageManager.normalize_version` (apm.py 133-139):
`version.lstrip('v')` (drops EVERY leading `v`), then `re.sub(r'[-_]+','.',·)`. -/
def normalize_version (version : String) : String :=
  String.mk (collapse_seps ((version.data.dropWhile (fun c => c = 'v'))))

/-! ## `split_version_parts` (apm.py 141-159) -/

/-- Numeric value of a run of ASCII digits, as Python `int` reads it. -/
def digits_to_nat (ds : List Char) : Nat :=
  ds.foldl (fun n c => n * 10 + (c.toNat - 48)) 0

/-- The `{'numeric': ..., 'text': ...}` dictionary built by
`split_version_parts`. -/
structure VersionParts where
  numeric : List Nat
  text : List String
deriving DecidableEq, Repr

/-- Embeds `AndroidPackageManager.split_version_parts` (apm.py 141-159):
split on `.`; per segment, `re.match(r'(\d+)', part)` extracts a leading
digit run into `numeric` and the non-empty remainder into `text`; a segment
with no leading digit goes to `text` whole. -/
def split_version_parts (version : String) : VersionParts :=
  (py_split version '.').foldl
    (fun acc part =>
      let ds := part.data.takeWhile Char.isDigit
      if ds.isEmpty then
        { acc with text := acc.text ++ [part] }
      else
        let remaining := part.data.dropWhile Char.isDigit
        { numeric := acc.numeric ++ [digits_to_nat ds],
          text := if remaining.isEmpty then acc.text else acc.text ++ [String.mk remaining] })
    ⟨[], []⟩

/-! ## Python ordering on lists of strings

`latest_parts['text'] > current_parts['text']` compares two `list[str]`
values: lexicographically, element strings compared by code point, a strict
prefix being smaller. -/

/-- Python comparison of two strings, character lists by code point. -/
def chars_cmp : List Char → List Char → Ordering
  | [], [] => .eq
  | [], _ :: _ => .lt
  | _ :: _, [] => .gt
  | a :: as_, b :: bs =>
    match compare a.toNat b.toNat with
    | .eq => chars_cmp as_ bs
    | o => o

/-- Python comparison of two `list[str]` values. -/
def strs_cmp : List String → List String → Ordering
  | [], [] => .eq
  | [], _ :: _ => .lt
  | _ :: _, [] => .gt
  | a :: as_, b :: bs =>
    match chars_cmp a.data b.data with
    | .eq => strs_cmp as_ bs
    | o => o

/-- Python `latest_text > current_text` on `list[str]`. -/
def py_list_str_gt (a b : List String) : Bool :=
  strs_cmp a b == .gt

/-! ## `compare_versions_semantic` (apm.py 161-189) -/

/-- The `for i in range(max(len, len))` loop of `compare_versions_semantic`
(apm.py 173-180): first index whose padded components differ decides
(`some true` for return True, `some false` for return False); `none` when
the loop finishes.  Indexing with default `0` models
`parts[i] if i < len(parts) else 0`. -/
def numeric_first_diff (l c : List Nat) : Option Bool :=
  (List.range (max l.length c.length)).findSome? (fun i =>
    let l_part := l.getD i 0
    let c_part := c.getD i 0
    if l_part > c_part then some true
    else if l_part < c_part then some false
    else none)

/-- Embeds `AndroidPackageManager.compare_versions_semantic` (apm.py 161-189).
The Python body is wrapped in `try/except Exception: return False`, but no
step of it can raise (integer parsing and list comparison are total), so the
embedding is the bare computation. -/
def compare_versions_semantic (latest current : String) : Bool :=
  let latest_parts := split_version_parts (normalize_version latest)
  let current_parts := split_version_parts (normalize_version current)
  match numeric_first_diff latest_parts.numeric current_parts.numeric with
  | some b => b
  | none =>
    if !latest_parts.text.isEmpty && !current_parts.text.isEmpty then
      py_list_str_gt latest_parts.text current_parts.text
    else
      false

/-! ## `is_version_newer` (apm.py 191-211) -/

/-- Outcome of the `version.parse(latest) > version.parse(current)` attempt
with the external `packaging` library (not part of this repository): the
library may be missing (`ImportError`), may raise while parsing
(`InvalidVersion`, caught by `except Exception`), or may return a Boolean. -/
inductive PrimaryOutcome where
  | ok (b : Bool)
  | importError
  | parseError
deriving DecidableEq, Repr

/-- Embeds `AndroidPackageManager.is_version_newer` (apm.py 191-211),
parameterised by the outcome of the `packaging.version` attempt:
`except ImportError` falls back to `compare_versions_semantic`, while
`except Exception` (a parse failure) returns `False` directly. -/
def is_version_newer (primary : PrimaryOutcome) (latest current : String) : Bool :=
  if latest = "" || current = "" then false
  else if latest = current then false
  else if !(is_valid_version latest) || !(is_valid_version current) then false
  else
    match primary with
    | .ok b => b
    | .importError => compare_versions_semantic latest current
    | .parseError => false

/-! ## Python `int()` (ASCII model), for `is_questionable_update` -/

/-- Digit/underscore tail of a Python integer literal: after a digit, more
digits may follow, and a single `_` must be followed by a digit. -/
def py_uint_aux : Nat → List Char → Option Nat
  | acc, [] => some acc
  | acc, '_' :: c :: rest =>
    if c.isDigit then py_uint_aux (acc * 10 + (c.toNat - 48)) rest else none
  | _, ['_'] => none
  | acc, c :: rest =>
    if c.isDigit then py_uint_aux (acc * 10 + (c.toNat - 48)) rest else none

/-- Unsigned body of Python `int(s)`: a non-empty digit run, single
underscores allowed between digits. -/
def py_uint_of_chars : List Char → Option Nat
  | [] => none
  | c :: rest => if c.isDigit then py_uint_aux (c.toNat - 48) rest else none

/-- Models Python `int(s)` on ASCII strings: surrounding whitespace stripped,
optional `+`/`-` sign, then a non-empty digit run with single underscores
allowed between digits; anything else raises `ValueError` (`none` here). -/
def py_int_of_string (s : String) : Option Int :=
  match (py_strip s).data with
  | '+' :: rest => (py_uint_of_chars rest).map (fun n => (n : Int))
  | '-' :: rest => (py_uint_of_chars rest).map (fun n => -(n : Int))
  | l => (py_uint_of_chars l).map (fun n => (n : Int))

/-! ## `is_questionable_update` (apm.py 213-236) -/

/-- The suspicious tokens of `is_questionable_update` (apm.py 229). -/
def suspicious_tokens : List String :=
  ["only", "dev", "test", "debug", "alpha", "beta"]

/-- Python `s.split('.')[0]`: the segment before the first dot (`split`
always yields at least one element, so the index never fails). -/
def first_segment (s : String) : String :=
  (py_split s '.').headD ""

/-- Embeds `AndroidPackageManager.is_questionable_update` (apm.py 213-236):
`int(current.split('.')[0])` and `int(latest.split('.')[0])` inside
`try/except (ValueError, IndexError): return True`; then the major-jump,
downgrade and suspicious-token rules. -/
def is_questionable_update (current latest : String) : Bool :=
  match py_int_of_string (first_segment current), py_int_of_string (first_segment latest) with
  | some current_major, some latest_major =>
    if latest_major - current_major > 2 then true
    else if latest_major < current_major then true
    else if suspicious_tokens.any (fun t => str_contains (py_lower latest) t) then true
    else false
  | _, _ => true

/-! ## `parse_latest_version_from_fdroidcl` (apm.py 66-106)

The strict first pass scans stripped lines starting with `Version:`; the
looser second pass runs `re.findall(r'\b(?:v?)(\d+(?:\.\d+)*(?:[-\.\w]*)?)\b', line)`
on each raw line.  The statement `version.split()[0]` raises `IndexError`
when the cleaned-up candidate is empty, so the embedding returns `Except`. -/

/-- The blocklist of the strict pass (`invalid_patterns`, apm.py 88). -/
def strict_blocklist : List String :=
  ["only", "latest", "current", "version", "unknown", "null", "none"]

/-- Character class of the regex `^[\d\.\-\w]+$` (apm.py 86). -/
def strict_char (c : Char) : Bool :=
  c.isDigit || c = '.' || c = '-' || word_char c

/-- Python `re.match(r'^[\d\.\-\w]+$', version)` as a Boolean. -/
def strict_match (s : String) : Bool :=
  !s.data.isEmpty && s.data.all strict_char

/-- The acceptance test of the strict pass (apm.py 86-89): regex match,
at least one digit, and no blocklist token inside the lowercased candidate. -/
def strict_accept (v : String) : Bool :=
  strict_match v && has_digit v &&
    !(strict_blocklist.any (fun invalid => str_contains (py_lower v) invalid))

/-- Python `version.split()[0]`: `split()` with no argument splits on
whitespace runs discarding empty pieces, so index `[0]` is the first
whitespace-delimited token — or `IndexError` (`none` here) when there is
none. -/
def first_ws_token (s : String) : Option String :=
  match s.data.dropWhile py_is_space with
  | [] => none
  | c :: cs => some (String.mk (c :: cs.takeWhile (fun d => !py_is_space d)))

/-- One iteration of the strict loop (apm.py 75-90) on one line: strip it;
on a `Version:` line take the text after the label (`split('Version:', 1)[1]`
drops the 8-character prefix), strip, drop from the first `(`, strip, then
`split()[0]` — which raises (`Except.error`) when nothing is left — and test
acceptance. -/
def strict_candidate (raw_line : String) : Except Unit (Option String) :=
  let line := py_strip raw_line
  if starts_with_chars "Version:".data line.data then
    let version := py_strip (String.mk (line.data.drop 8))
    let version := py_strip (String.mk (version.data.takeWhile (fun c => c ≠ '(')))
    match first_ws_token version with
    | none => .error ()
    | some v => if strict_accept v then .ok (some v) else .ok none
  else
    .ok none

/-- The whole strict loop: all accepted candidates in line order, or the
`IndexError` of the first line that raises.  The Python loop does not break
after a find, so a later bad line still aborts the scan. -/
def strict_pass : List String → Except Unit (List String)
  | [] => .ok []
  | line :: rest =>
    match strict_candidate line with
    | .error e => .error e
    | .ok c =>
      match strict_pass rest with
      | .error e => .error e
      | .ok others => .ok (match c with | some v => v :: others | none => others)

/-- Regex `\b`: true at a position (given the previous character and the
remaining input) iff exactly one side is a word character. -/
def at_boundary (prev : Option Char) (rest : List Char) : Bool :=
  (match prev with | some c => word_char c | none => false) !=
    (match rest with | c :: _ => word_char c | [] => false)

/-- Character class of the regex tail `[-\.\w]*`. -/
def tail_char (c : Char) : Bool :=
  c = '-' || c = '.' || word_char c

/-- Greedy `(?:\.\d+)*`: consumed characters and the remaining input.
Each round consumes at least two characters, so fuel `length of the input`
never runs out. -/
def dot_digit_star : Nat → List Char → List Char × List Char
  | fuel + 1, '.' :: rest =>
    let ds := rest.takeWhile Char.isDigit
    if ds.isEmpty then ([], '.' :: rest)
    else
      let p := dot_digit_star fuel (rest.dropWhile Char.isDigit)
      ('.' :: (ds ++ p.1), p.2)
  | _, l => ([], l)

/-- Match of `\d+(?:\.\d+)*(?:[-\.\w]*)?\b` at the head of `m`: the greedy
stars consume maximally, and the only backtracking the final `\b` can force
is giving back trailing `.`/`-` characters (after which the match ends on a
word character, so the boundary holds).  Returns the captured group, its
last character and the input remaining after the match. -/
def match_core (m : List Char) : Option (String × Char × List Char) :=
  let ds := m.takeWhile Char.isDigit
  if ds.isEmpty then none
  else
    let rest1 := m.dropWhile Char.isDigit
    let p := dot_digit_star rest1.length rest1
    let run := p.2.takeWhile tail_char
    let rest3 := p.2.dropWhile tail_char
    let keep := (run.reverse.dropWhile (fun c => c = '.' || c = '-')).reverse
    let dropped := run.drop keep.length
    let grp := ds ++ p.1 ++ keep
    some (String.mk grp, grp.getLastD '0', dropped ++ rest3)

/-- Try the whole pattern `\b(?:v?)(\d+(?:\.\d+)*(?:[-\.\w]*)?)\b` at the
current position: boundary first, then the greedy optional `v`, then the
captured group. -/
def try_match (prev : Option Char) (l : List Char) : Option (String × Char × List Char) :=
  if at_boundary prev l then
    match l with
    | 'v' :: rest =>
      match match_core rest with
      | some r => some r
      | none => match_core l
    | _ => match_core l
  else
    none

/-- The `re.findall` scan: try the pattern at each position left to right and
resume after each match end.  Every step consumes at least one character,
so fuel `length + 1` never runs out. -/
def fallback_scan : Nat → Option Char → List Char → List String
  | 0, _, _ => []
  | _ + 1, _, [] => []
  | fuel + 1, prev, c :: cs =>
    match try_match prev (c :: cs) with
    | some r => r.1 :: fallback_scan fuel (some r.2.1) r.2.2
    | none => fallback_scan fuel (some c) cs

/-- All group captures of the fallback regex on one raw line. -/
def fallback_matches (line : String) : List String :=
  fallback_scan (line.data.length + 1) none line.data

/-- The fallback filter (apm.py 99-102): length at least 3, contains a dot,
at most 5 dots, at least one digit. -/
def fallback_accept (version : String) : Bool :=
  version.length ≥ 3 && version.data.contains '.' &&
    version.data.count '.' ≤ 5 && has_digit version

/-- The looser second pass (apm.py 93-103) over the raw lines. -/
def fallback_pass (lines : List String) : List String :=
  (lines.map (fun line => (fallback_matches line).filter fallback_accept)).flatten

/-- Embeds `AndroidPackageManager.parse_latest_version_from_fdroidcl`
(apm.py 66-106).  `Except.error ()` is the uncaught `IndexError` of
`version.split()[0]`; `.ok none` is the Python `None`. -/
def parse_latest_version_from_fdroidcl (output : String) : Except Unit (Option String) :=
  if output = "" then .ok none
  else
    match strict_pass (py_split output '\n') with
    | .error e => .error e
    | .ok found =>
      let found_versions := if found.isEmpty then fallback_pass (py_split output '\n') else found
      .ok found_versions.head?

/-! ## `get_available_updates` (apm.py 238-326)

The device and repository collaborators are inputs: `get_version` models
`get_package_version`, `fdroidcl_show` models the `subprocess.run(['fdroidcl',
'show', package])` call, and `primary` models the per-pair outcome of the
`packaging.version` attempt inside `is_version_newer`. -/

/-- Outcome of `subprocess.run(['fdroidcl', 'show', pkg])`: a timeout
(`subprocess.TimeoutExpired`), a non-zero exit code, or captured stdout. -/
inductive FdroidclShow where
  | timeout
  | fail
  | ok (stdout : String)

/-- An entry of `updates_available` / `questionable_updates` (apm.py 287-291). -/
structure UpdateInfo where
  package : String
  current_version : String
  latest_version : String
deriving DecidableEq, Repr

/-- One iteration of the package loop of `get_available_updates`
(apm.py 255-307): `continue` on missing or falsy current version, timeout,
non-zero exit, extraction error (the blanket `except Exception`), no
extracted version, invalid versions, or a non-newer latest; otherwise the
update record tagged with its `is_questionable_update` classification. -/
def process_package (get_version : String → Option String)
    (fdroidcl_show : String → FdroidclShow)
    (primary : String → String → PrimaryOutcome)
    (package : String) : Option (UpdateInfo × Bool) :=
  match get_version package with
  | none => none
  | some current_version =>
    if current_version = "" then none
    else
      match fdroidcl_show package with
      | .timeout => none
      | .fail => none
      | .ok stdout =>
        match parse_latest_version_from_fdroidcl stdout with
        | .error _ => none
        | .ok none => none
        | .ok (some latest_version) =>
          if !(is_valid_version current_version) || !(is_valid_version latest_version) then
            none
          else if is_version_newer (primary latest_version current_version)
              latest_version current_version then
            some (⟨package, current_version, latest_version⟩,
              is_questionable_update current_version latest_version)
          else
            none

/-- Appending one package's outcome to the two buckets (`updates_available`,
`questionable_updates`), as the loop body of `get_available_updates` does. -/
def update_step (get_version : String → Option String)
    (fdroidcl_show : String → FdroidclShow)
    (primary : String → String → PrimaryOutcome)
    (acc : List UpdateInfo × List UpdateInfo) (package : String) :
    List UpdateInfo × List UpdateInfo :=
  match process_package get_version fdroidcl_show primary package with
  | none => acc
  | some (info, questionable) =>
    if questionable then (acc.1, acc.2 ++ [info]) else (acc.1 ++ [info], acc.2)

/-- Embeds the record-collecting part of
`AndroidPackageManager.get_available_updates` (apm.py 238-326): the first
component is the `updates_available` bucket, the second the
`questionable_updates` bucket, each in append order. -/
def get_available_updates (get_version : String → Option String)
    (fdroidcl_show : String → FdroidclShow)
    (primary : String → String → PrimaryOutcome)
    (packages : List String) : List UpdateInfo × List UpdateInfo :=
  packages.foldl (update_step get_version fdroidcl_show primary) ([], [])

/-! ## Specification-side definitions

The following definitions are written from the words of the specification
and of the claims (not from the Python code); the theorems below compare
them with the embedded code. -/

/-- Spec §4.2, stated as the claim C6 lists it: length at least 2 and at
most 20, at least one digit, and the lowercased string contains none of the
twenty blocklist substrings. -/
def claim_blocklist : List String :=
  ["only", "latest", "current", "version", "unknown", "null", "none",
   "description", "name", "title", "app", "package", "install",
   "download", "file", "url", "http", "www", "com", "org"]

/-- The validity predicate exactly as claim C6 states it. -/
def claim_valid_version (s : String) : Bool :=
  decide (2 ≤ s.length) && decide (s.length ≤ 20) && s.data.any Char.isDigit &&
    !(claim_blocklist.any (fun t => str_contains (py_lower s) t))

mutual

/-- Spec §4.3's run replacement, stated directly: a maximal run of `-`/`_`
becomes one `.` emitted at the first character of the run, the rest of the
run being skipped by `spec_after_run`. -/
def spec_collapse : List Char → List Char
  | [] => []
  | c :: cs => if is_sep c then '.' :: spec_after_run cs else c :: spec_collapse cs

/-- Skips the remainder of a separator run, then continues the replacement. -/
def spec_after_run : List Char → List Char
  | [] => []
  | c :: cs => if is_sep c then spec_after_run cs else c :: spec_collapse cs

end

/-- The `normalize` contract exactly as claim C4 states it: runs of `-`/`_` to a single
`.`, and exactly ONE leading `v` stripped. -/
def claim_normalize_single_v (s : String) : String :=
  let stripped := match s.data with
    | 'v' :: rest => rest
    | l => l
  String.mk (spec_collapse stripped)

/-- The `normalize` contract as the amended claim states it: runs of `-`/`_` to a single
`.`, and ALL leading `v` characters stripped. -/
def spec_normalize (s : String) : String :=
  String.mk (spec_collapse (s.data.dropWhile (fun c => c = 'v')))

/-- Spec §4.4 numeric comparison, stated directly: compare element-wise left
to right, a missing element of the shorter sequence standing for `0`. -/
def spec_num_compare : List Nat → List Nat → Ordering
  | [], [] => .eq
  | [], b :: bs =>
    match compare 0 b with
    | .eq => spec_num_compare [] bs
    | o => o
  | a :: as_, [] =>
    match compare a 0 with
    | .eq => spec_num_compare as_ []
    | o => o
  | a :: as_, b :: bs =>
    match compare a b with
    | .eq => spec_num_compare as_ bs
    | o => o

/-- Strict greater on character sequences by code point, a strict prefix
being smaller (spec §4.4's string comparison). -/
def spec_chars_gt : List Char → List Char → Bool
  | [], _ => false
  | _ :: _, [] => true
  | a :: as_, b :: bs =>
    if a = b then spec_chars_gt as_ bs else decide (b.toNat < a.toNat)

/-- Strict greater on strings (spec §4.4). -/
def spec_str_gt (x y : String) : Bool := spec_chars_gt x.data y.data

/-- Spec §4.4 text comparison: sequences of strings compared element-wise,
shorter-with-identical-prefix is less. -/
def spec_text_gt : List String → List String → Bool
  | [], _ => false
  | _ :: _, [] => true
  | a :: as_, b :: bs => if a = b then spec_text_gt as_ bs else spec_str_gt a b

/-- The fallback comparison exactly as spec §4.4 / claim C2 state it:
numeric sequences first (missing element is `0`, first difference decides);
on a tie, the lexicographic text comparison only when both text sequences
are non-empty, and false when either is empty. -/
def spec_compare_semantic (latest current : String) : Bool :=
  let latest_parts := split_version_parts (normalize_version latest)
  let current_parts := split_version_parts (normalize_version current)
  match spec_num_compare latest_parts.numeric current_parts.numeric with
  | .gt => true
  | .lt => false
  | .eq =>
    if latest_parts.text = [] ∨ current_parts.text = [] then false
    else spec_text_gt latest_parts.text current_parts.text

/-- The questionable-update rule exactly as claim C7 states it: a disjunction
of parse failure on either major segment, a major jump above 2, a major
downgrade, and a suspicious token in the lowercased latest string. -/
def claim_questionable (current latest : String) : Bool :=
  (py_int_of_string (first_segment current)).isNone ||
  (py_int_of_string (first_segment latest)).isNone ||
  (match py_int_of_string (first_segment current),
      py_int_of_string (first_segment latest) with
   | some current_major, some latest_major =>
     decide (latest_major - current_major > 2) || decide (latest_major < current_major)
   | _, _ => false) ||
  suspicious_tokens.any (fun t => str_contains (py_lower latest) t)

/-- The candidate character class exactly as claim C5 states it: digit,
letter, dot or dash (no underscore). -/
def claim_version_char (c : Char) : Bool :=
  c.isDigit || c.isAlpha || c = '.' || c = '-'

/-- The candidate character class of the amended claim C5: digit, letter,
underscore, dot or dash. -/
def amended_version_char (c : Char) : Bool :=
  c.isDigit || c.isAlpha || c = '_' || c = '.' || c = '-'

/-! ## Helper lemmas on orderings -/

theorem nat_compare_swap (a b : Nat) : compare b a = (compare a b).swap := by
  rcases Nat.lt_trichotomy a b with h | h | h
  · rw [Nat.compare_eq_gt.2 h, Nat.compare_eq_lt.2 h]; rfl
  · subst h; rw [Nat.compare_eq_eq.2 rfl]; rfl
  · rw [Nat.compare_eq_lt.2 h, Nat.compare_eq_gt.2 h]; rfl

theorem spec_num_compare_swap (l : List Nat) :
    ∀ c : List Nat, spec_num_compare c l = (spec_num_compare l c).swap := by
  induction l with
  | nil =>
    intro c
    induction c with
    | nil => simp [spec_num_compare, Ordering.swap]
    | cons b bs ih =>
      simp only [spec_num_compare]
      rw [nat_compare_swap 0 b]
      cases compare 0 b <;> simp_all [Ordering.swap]
  | cons a as_ ih =>
    intro c
    cases c with
    | nil =>
      simp only [spec_num_compare]
      rw [nat_compare_swap a 0]
      cases compare a 0 <;> simp_all [Ordering.swap, ih []]
    | cons b bs =>
      simp only [spec_num_compare]
      rw [nat_compare_swap a b]
      cases compare a b <;> simp_all [Ordering.swap, ih bs]

theorem char_toNat_inj {a b : Char} (h : a.toNat = b.toNat) : a = b :=
  Char.ext (UInt32.toNat.inj h)

theorem chars_cmp_eq_iff : ∀ x y : List Char, chars_cmp x y = .eq ↔ x = y := by
  intro x
  induction x with
  | nil => intro y; cases y <;> simp [chars_cmp]
  | cons a as_ ih =>
    intro y
    cases y with
    | nil => simp [chars_cmp]
    | cons b bs =>
      simp only [chars_cmp]
      cases h : compare a.toNat b.toNat with
      | lt =>
        have hne : a ≠ b := fun he => by
          rw [he, Nat.compare_eq_eq.2 rfl] at h; cases h
        simp [hne]
      | eq =>
        have he : a = b := char_toNat_inj (Nat.compare_eq_eq.1 h)
        simp [he, ih bs]
      | gt =>
        have hne : a ≠ b := fun he => by
          rw [he, Nat.compare_eq_eq.2 rfl] at h; cases h
        simp [hne]

theorem chars_cmp_swap : ∀ x y : List Char, chars_cmp y x = (chars_cmp x y).swap := by
  intro x
  induction x with
  | nil => intro y; cases y <;> rfl
  | cons a as_ ih =>
    intro y
    cases y with
    | nil => rfl
    | cons b bs =>
      simp only [chars_cmp]
      rw [nat_compare_swap a.toNat b.toNat]
      cases compare a.toNat b.toNat <;> simp [Ordering.swap, ih bs]

theorem chars_cmp_gt_iff : ∀ x y : List Char, (chars_cmp x y == .gt) = spec_chars_gt x y := by
  intro x
  induction x with
  | nil => intro y; cases y <;> rfl
  | cons a as_ ih =>
    intro y
    cases y with
    | nil => rfl
    | cons b bs =>
      simp only [chars_cmp, spec_chars_gt]
      cases h : compare a.toNat b.toNat with
      | lt =>
        have hne : a ≠ b := fun he => by
          rw [he, Nat.compare_eq_eq.2 rfl] at h; cases h
        have hlt : a.toNat < b.toNat := Nat.compare_eq_lt.1 h
        simp [hne, Nat.lt_asymm hlt]
        rfl
      | eq =>
        have he : a = b := char_toNat_inj (Nat.compare_eq_eq.1 h)
        simp [he, ih bs]
      | gt =>
        have hne : a ≠ b := fun he => by
          rw [he, Nat.compare_eq_eq.2 rfl] at h; cases h
        have hgt : b.toNat < a.toNat := Nat.compare_eq_gt.1 h
        simp [hne, hgt]
        rfl

theorem strs_cmp_swap : ∀ x y : List String, strs_cmp y x = (strs_cmp x y).swap := by
  intro x
  induction x with
  | nil => intro y; cases y <;> rfl
  | cons a as_ ih =>
    intro y
    cases y with
    | nil => rfl
    | cons b bs =>
      simp only [strs_cmp]
      rw [chars_cmp_swap a.data b.data]
      cases chars_cmp a.data b.data <;> simp [Ordering.swap, ih bs]

theorem strs_cmp_gt_iff : ∀ x y : List String, (strs_cmp x y == .gt) = spec_text_gt x y := by
  intro x
  induction x with
  | nil => intro y; cases y <;> rfl
  | cons a as_ ih =>
    intro y
    cases y with
    | nil => rfl
    | cons b bs =>
      simp only [strs_cmp, spec_text_gt]
      cases h : chars_cmp a.data b.data with
      | lt =>
        have hne : a ≠ b := fun he => by
          rw [he, (chars_cmp_eq_iff b.data b.data).2 rfl] at h; cases h
        have : spec_str_gt a b = false := by
          unfold spec_str_gt
          rw [← chars_cmp_gt_iff, h]
          rfl
        simp [hne, this]
        rfl
      | eq =>
        have he : a = b := String.ext ((chars_cmp_eq_iff a.data b.data).1 h)
        simp [he, ih bs]
      | gt =>
        have hne : a ≠ b := fun he => by
          rw [he, (chars_cmp_eq_iff b.data b.data).2 rfl] at h; cases h
        have : spec_str_gt a b = true := by
          unfold spec_str_gt
          rw [← chars_cmp_gt_iff, h]
          rfl
        simp [hne, this]
        rfl

/-! ## Lemmas on the numeric loop -/

theorem findSome?_range_succ (f : Nat → Option Bool) (n : Nat) :
    (List.range (n + 1)).findSome? f =
      (match f 0 with
       | some b => some b
       | none => (List.range n).findSome? (fun i => f (i + 1))) := by
  rw [List.range_succ_eq_map, List.findSome?_cons]
  cases h : f 0 with
  | some b => rfl
  | none =>
    rw [List.findSome?_map]
    rfl

theorem nfd_cons_cons (a b : Nat) (as_ bs : List Nat) :
    numeric_first_diff (a :: as_) (b :: bs) =
      (if a > b then some true
       else if a < b then some false
       else numeric_first_diff as_ bs) := by
  unfold numeric_first_diff
  have hmax : max (a :: as_).length (b :: bs).length = max as_.length bs.length + 1 := by
    simp only [List.length_cons]
    omega
  rw [hmax, findSome?_range_succ]
  simp only [List.getD_cons_zero, List.getD_cons_succ]
  rcases Nat.lt_trichotomy a b with h | h | h
  · simp [h, Nat.lt_asymm h]
  · subst h
    simp [Nat.lt_irrefl]
  · simp [h, Nat.lt_asymm h]

theorem nfd_cons_nil (a : Nat) (as_ : List Nat) :
    numeric_first_diff (a :: as_) [] =
      (if a > 0 then some true else numeric_first_diff as_ []) := by
  unfold numeric_first_diff
  have hmax : max (a :: as_).length ([] : List Nat).length = max as_.length 0 + 1 := by
    simp only [List.length_cons, List.length_nil]
    omega
  rw [hmax, findSome?_range_succ]
  simp only [List.getD_cons_zero, List.getD_cons_succ, List.getD_nil]
  rcases Nat.eq_zero_or_pos a with h | h
  · subst h
    simp [Nat.lt_irrefl]
  · simp [h]

theorem nfd_nil_cons (b : Nat) (bs : List Nat) :
    numeric_first_diff [] (b :: bs) =
      (if 0 < b then some false else numeric_first_diff [] bs) := by
  unfold numeric_first_diff
  have hmax : max ([] : List Nat).length (b :: bs).length = max 0 bs.length + 1 := by
    simp only [List.length_cons, List.length_nil]
    omega
  rw [hmax, findSome?_range_succ]
  simp only [List.getD_cons_zero, List.getD_cons_succ, List.getD_nil]
  rcases Nat.eq_zero_or_pos b with h | h
  · subst h
    simp [Nat.lt_irrefl]
  · simp [h, Nat.not_lt_zero]

theorem nfd_eq_spec : ∀ l c : List Nat,
    numeric_first_diff l c =
      (match spec_num_compare l c with
       | .gt => some true
       | .lt => some false
       | .eq => none) := by
  intro l
  induction l with
  | nil =>
    intro c
    induction c with
    | nil => simp [numeric_first_diff, spec_num_compare]
    | cons b bs ih =>
      rw [nfd_nil_cons]
      simp only [spec_num_compare]
      rcases Nat.eq_zero_or_pos b with h | h
      · subst h
        have hc : compare (0 : Nat) 0 = Ordering.eq := Nat.compare_eq_eq.2 rfl
        simp [hc, Nat.lt_irrefl, ih]
      · have hc : compare 0 b = Ordering.lt := Nat.compare_eq_lt.2 h
        simp [hc, h]
  | cons a as_ ih =>
    intro c
    cases c with
    | nil =>
      rw [nfd_cons_nil]
      simp only [spec_num_compare]
      rcases Nat.eq_zero_or_pos a with h | h
      · subst h
        have hc : compare (0 : Nat) 0 = Ordering.eq := Nat.compare_eq_eq.2 rfl
        simp [hc, Nat.lt_irrefl, ih []]
      · have hc : compare a 0 = Ordering.gt := Nat.compare_eq_gt.2 h
        simp [hc, h]
    | cons b bs =>
      rw [nfd_cons_cons]
      simp only [spec_num_compare]
      rcases Nat.lt_trichotomy a b with h | h | h
      · have hc : compare a b = Ordering.lt := Nat.compare_eq_lt.2 h
        simp [hc, h, Nat.lt_asymm h]
      · subst h
        have hc : compare a a = Ordering.eq := Nat.compare_eq_eq.2 rfl
        simp [hc, Nat.lt_irrefl, ih bs]
      · have hc : compare a b = Ordering.gt := Nat.compare_eq_gt.2 h
        simp [hc, h, Nat.lt_asymm h]

/-- The embedded fallback comparison agrees with the spec §4.4 description. -/
theorem compare_semantic_eq_spec (latest current : String) :
    compare_versions_semantic latest current = spec_compare_semantic latest current := by
  unfold compare_versions_semantic spec_compare_semantic
  dsimp only
  rw [nfd_eq_spec]
  cases h : spec_num_compare (split_version_parts (normalize_version latest)).numeric
      (split_version_parts (normalize_version current)).numeric with
  | lt => rfl
  | gt => rfl
  | eq =>
    by_cases h1 : (split_version_parts (normalize_version latest)).text = []
    · simp [h1]
    · by_cases h2 : (split_version_parts (normalize_version current)).text = []
      · simp [h2]
      · simp [h1, h2, py_list_str_gt, strs_cmp_gt_iff]

/-- The two run-replacement formulations agree: emitting the dot at the last
character of a run (as the embedded `re.sub` does) equals emitting it at the
first character and skipping the rest. -/
theorem collapse_eq_spec (l : List Char) : collapse_seps l = spec_collapse l := by
  induction l using collapse_seps.induct with
  | case1 => simp [collapse_seps, spec_collapse]
  | case2 c h => simp [collapse_seps, spec_collapse, spec_after_run, h]
  | case3 c h => simp [collapse_seps, spec_collapse, h]
  | case4 c d rest h1 h2 ih =>
    simp only [collapse_seps, h1, h2, if_true]
    rw [ih]
    simp [spec_collapse, spec_after_run, h1, h2]
  | case5 c d rest h1 h2 ih =>
    simp only [collapse_seps, h1, h2]
    rw [ih]
    simp [spec_collapse, spec_after_run, h1, h2]
  | case6 c d rest h1 ih =>
    simp only [collapse_seps, h1]
    rw [ih]
    simp [spec_collapse, h1]

/-- The regex class `[\d\.\-\w]` equals the amended claim's class
digit/letter/underscore/dot/dash, character by character. -/
theorem strict_char_eq_amended (c : Char) : strict_char c = amended_version_char c := by
  unfold strict_char amended_version_char word_char
  cases hd : c.isDigit <;> cases ha : c.isAlpha <;> cases hu : decide (c = '_') <;>
    simp [hd, ha, hu]

/-- Any record produced for one package passed every guard of the loop body:
both versions valid and the latest strictly newer. -/
theorem process_package_sound (get_version : String → Option String)
    (fdroidcl_show : String → FdroidclShow)
    (primary : String → String → PrimaryOutcome)
    (package : String) (info : UpdateInfo) (q : Bool)
    (h : process_package get_version fdroidcl_show primary package = some (info, q)) :
    is_valid_version info.current_version = true ∧
      is_valid_version info.latest_version = true ∧
      is_version_newer (primary info.latest_version info.current_version)
        info.latest_version info.current_version = true := by
  unfold process_package at h
  cases hgv : get_version package with
  | none => rw [hgv] at h; simp at h
  | some current =>
    rw [hgv] at h
    dsimp only at h
    by_cases hce : current = ""
    · rw [if_pos hce] at h; cases h
    · rw [if_neg hce] at h
      cases hfs : fdroidcl_show package with
      | timeout => rw [hfs] at h; simp at h
      | fail => rw [hfs] at h; simp at h
      | ok stdout =>
        rw [hfs] at h
        dsimp only at h
        cases hp : parse_latest_version_from_fdroidcl stdout with
        | error e => rw [hp] at h; simp at h
        | ok latestOpt =>
          rw [hp] at h
          cases latestOpt with
          | none => simp at h
          | some latest =>
            dsimp only at h
            cases hcv : is_valid_version current with
            | false => rw [if_pos (by simp [hcv])] at h; cases h
            | true =>
              cases hlv : is_valid_version latest with
              | false => rw [if_pos (by simp [hlv])] at h; cases h
              | true =>
                rw [if_neg (by simp [hcv, hlv])] at h
                by_cases hn : is_version_newer (primary latest current) latest current = true
                · rw [if_pos hn] at h
                  injection h with h1
                  rw [Prod.mk.injEq] at h1
                  obtain ⟨hinfo, _⟩ := h1
                  subst hinfo
                  exact ⟨hcv, hlv, hn⟩
                · rw [if_neg hn] at h; cases h

/-- Every record in either bucket after the fold either was in the initial
accumulator or was produced by `process_package` for some package. -/
theorem get_updates_mem (get_version : String → Option String)
    (fdroidcl_show : String → FdroidclShow)
    (primary : String → String → PrimaryOutcome) :
    ∀ (packages : List String) (acc : List UpdateInfo × List UpdateInfo) (r : UpdateInfo),
      (r ∈ (packages.foldl (update_step get_version fdroidcl_show primary) acc).1 ∨
        r ∈ (packages.foldl (update_step get_version fdroidcl_show primary) acc).2) →
      r ∈ acc.1 ∨ r ∈ acc.2 ∨
        ∃ package q,
          process_package get_version fdroidcl_show primary package = some (r, q) := by
  intro packages
  induction packages with
  | nil =>
    intro acc r h
    rcases h with h | h
    · exact Or.inl h
    · exact Or.inr (Or.inl h)
  | cons p ps ih =>
    intro acc r h
    rw [List.foldl_cons] at h
    rcases ih (update_step get_version fdroidcl_show primary acc p) r h with h1 | h1 | h1
    · unfold update_step at h1
      cases hp : process_package get_version fdroidcl_show primary p with
      | none => rw [hp] at h1; exact Or.inl h1
      | some iq =>
        rw [hp] at h1
        obtain ⟨info, q⟩ := iq
        cases q with
        | true => simp only [if_pos] at h1; exact Or.inl h1
        | false =>
          simp only [Bool.false_eq_true, if_neg, if_false] at h1
          rcases List.mem_append.1 h1 with h2 | h2
          · exact Or.inl h2
          · rw [List.mem_singleton] at h2
            subst h2
            exact Or.inr (Or.inr ⟨p, false, hp⟩)
    · unfold update_step at h1
      cases hp : process_package get_version fdroidcl_show primary p with
      | none => rw [hp] at h1; exact Or.inr (Or.inl h1)
      | some iq =>
        rw [hp] at h1
        obtain ⟨info, q⟩ := iq
        cases q with
        | false =>
          simp only [Bool.false_eq_true, if_neg, if_false] at h1
          exact Or.inr (Or.inl h1)
        | true =>
          simp only [if_pos] at h1
          rcases List.mem_append.1 h1 with h2 | h2
          · exact Or.inr (Or.inl h2)
          · rw [List.mem_singleton] at h2
            subst h2
            exact Or.inr (Or.inr ⟨p, true, hp⟩)
    · exact Or.inr (Or.inr h1)

/-! ## Claim theorems -/

/-- C1, counterexample: for the valid, distinct, non-empty pair
`("1.3", "1.2")`, a parse failure of the primary facility makes
`is_version_newer` return false WITHOUT consulting the fallback, whose own
result is true — refuting the claim that a parse failure falls through to
`compare_versions_semantic`. -/
theorem C1_counterexample :
    is_valid_version "1.3" = true ∧ is_valid_version "1.2" = true ∧
      ("1.3" : String) ≠ "1.2" ∧
      compare_versions_semantic "1.3" "1.2" = true ∧
      is_version_newer PrimaryOutcome.parseError "1.3" "1.2" = false :=
  ⟨by decide, by decide, by decide, by decide, by decide⟩

/-- C1, amended: under the preconditions, `is_version_newer` falls through
to `compare_versions_semantic` exactly when the primary facility is
UNAVAILABLE (import error); when the primary facility raises while parsing,
it returns false directly, without the fallback. -/
theorem C1_fallback_only_on_import_error (latest current : String)
    (h1 : latest ≠ "") (h2 : current ≠ "") (h3 : latest ≠ current)
    (h4 : is_valid_version latest = true) (h5 : is_valid_version current = true) :
    is_version_newer PrimaryOutcome.importError latest current =
        compare_versions_semantic latest current ∧
      is_version_newer PrimaryOutcome.parseError latest current = false := by
  unfold is_version_newer
  split_ifs <;> simp_all

/-- C1, witness for the amended theorem at the pair `("1.3", "1.2")`. -/
theorem C1_fallback_witness :
    is_version_newer PrimaryOutcome.importError "1.3" "1.2" =
        compare_versions_semantic "1.3" "1.2" ∧
      is_version_newer PrimaryOutcome.parseError "1.3" "1.2" = false :=
  C1_fallback_only_on_import_error "1.3" "1.2" (by decide) (by decide) (by decide)
    (by decide) (by decide)

/-- C2: the fallback `compare_versions_semantic` computes exactly the spec's
algorithm — numeric sequences element-wise with missing elements read as 0
and the first difference deciding, then the lexicographic strict-greater
text comparison only when both text sequences are non-empty, false when
either is empty (and no step of the embedded computation can raise). -/
theorem C2_compare_semantic_follows_spec (latest current : String) :
    compare_versions_semantic latest current = spec_compare_semantic latest current :=
  compare_semantic_eq_spec latest current

/-- C3: the claim says extraction never raises, but on a line consisting of
the bare label (or of the label followed only by a parenthesized token) the
code's `version.split()[0]` raises `IndexError` — the embedding returns the
error outcome on both inputs. -/
theorem C3_extraction_raises_index_error :
    parse_latest_version_from_fdroidcl "Version:" = Except.error () ∧
      parse_latest_version_from_fdroidcl "Version: (99)" = Except.error () :=
  ⟨rfl, rfl⟩

/-- C4, counterexample: the code's `lstrip('v')` strips EVERY leading `v`,
so `normalize_version "vv1.2" = "1.2"`, while the claim's
single-`v`-stripping function yields `"v1.2"`. -/
theorem C4_counterexample :
    normalize_version "vv1.2" = "1.2" ∧
      claim_normalize_single_v "vv1.2" = "v1.2" ∧
      ("1.2" : String) ≠ "v1.2" :=
  ⟨by decide, by decide, by decide⟩

/-- C4, amended: for every string, `normalize_version` equals the string
with each maximal run of `-`/`_` replaced by a single `.` and ALL leading
`v` characters stripped. -/
theorem C4_normalize_strips_all_leading_v (s : String) :
    normalize_version s = spec_normalize s := by
  unfold normalize_version spec_normalize
  rw [collapse_eq_spec]

/-- C5, counterexample: the strict pass accepts `"1_0"` (the regex `\w`
admits the underscore), although the underscore is outside the claim's
digit/letter/dot/dash character class. -/
theorem C5_counterexample :
    parse_latest_version_from_fdroidcl "Version: 1_0" = Except.ok (some "1_0") ∧
      strict_accept "1_0" = true ∧
      ("1_0".data.all claim_version_char) = false :=
  ⟨rfl, by decide, by decide⟩

/-- C5, amended: a strict-pass candidate is accepted exactly when it is
non-empty, every character is a digit, letter, underscore, dot or dash, it
contains a digit, and its lowercased form contains no blocklist token; the
first accepted candidate in line order is returned, as on the concrete
inputs of the claim. -/
theorem C5_strict_accept_amended :
    (∀ v : String, strict_accept v =
      (!v.data.isEmpty && v.data.all amended_version_char && has_digit v &&
        !(strict_blocklist.any (fun t => str_contains (py_lower v) t)))) ∧
      parse_latest_version_from_fdroidcl "Version: 1.4.2 (99)\nOther: x" =
        Except.ok (some "1.4.2") ∧
      parse_latest_version_from_fdroidcl "No version info here" = Except.ok none ∧
      parse_latest_version_from_fdroidcl "Version: 9.9\nVersion: 8.8" =
        Except.ok (some "9.9") := by
  refine ⟨fun v => ?_, rfl, rfl, rfl⟩
  unfold strict_accept strict_match
  rw [show strict_char = amended_version_char from funext strict_char_eq_amended]

/-- C6: `is_valid_version` returns true exactly under the claim's four
rules (length at least 2, at most 20, a digit present, no blocklist
substring in the lowercased string), with the claim's three examples. -/
theorem C6_is_valid_version_follows_spec :
    (∀ s : String, is_valid_version s = claim_valid_version s) ∧
      is_valid_version "only" = false ∧ is_valid_version "1.0" = true ∧
      is_valid_version "" = false := by
  refine ⟨fun s => ?_, by decide, by decide, by decide⟩
  unfold is_valid_version claim_valid_version
  rw [show claim_blocklist = invalid_patterns from rfl]
  split_ifs with h1 h2 h3 h4
  · have hle : ¬(2 ≤ s.length) := by omega
    simp [hle]
  · simp only [Bool.not_eq_true', has_digit] at h2
    simp [h2]
  · simp [h3]
  · have hle : ¬(s.length ≤ 20) := by omega
    simp [hle]
  · have l1 : 2 ≤ s.length := by omega
    have l2 : s.length ≤ 20 := by omega
    simp only [Bool.not_eq_true', has_digit, Bool.not_eq_false] at h2
    simp only [Bool.not_eq_true] at h3
    simp [l1, l2, h2, h3]

/-- C7: `is_questionable_update` returns true exactly when the claim's
disjunction holds — a major segment of either string fails Python integer
parsing, the major jump exceeds 2, the major decreases, or the lowercased
latest contains a suspicious token — with the claim's two examples. -/
theorem C7_is_questionable_follows_spec :
    (∀ current latest : String,
      is_questionable_update current latest = claim_questionable current latest) ∧
      is_questionable_update "1.0.0" "4.0.0" = true ∧
      is_questionable_update "1.0.0" "1.2.0" = false := by
  refine ⟨fun current latest => ?_, by decide, by decide⟩
  unfold is_questionable_update claim_questionable
  cases hc : py_int_of_string (first_segment current) with
  | none => simp [hc]
  | some cm =>
    cases hl : py_int_of_string (first_segment latest) with
    | none => simp [hc, hl]
    | some lm =>
      simp only [hc, hl, Option.isNone_some, Bool.false_or]
      split_ifs <;> simp_all

/-- C8: `is_version_newer` is false whenever the two strings are equal,
either is empty, or either fails `is_valid_version` — regardless of the
primary facility's outcome. -/
theorem C8_preconditions_give_false (primary : PrimaryOutcome) (latest current : String)
    (h : latest = current ∨ latest = "" ∨ current = "" ∨
      is_valid_version latest = false ∨ is_valid_version current = false) :
    is_version_newer primary latest current = false := by
  unfold is_version_newer
  rcases h with h | h | h | h | h <;> split_ifs <;> simp_all

/-- C8, witness: `is_version_newer x x = false` at the valid version
`"1.0"`. -/
theorem C8_witness : is_version_newer PrimaryOutcome.importError "1.0" "1.0" = false :=
  C8_preconditions_give_false PrimaryOutcome.importError "1.0" "1.0" (Or.inl rfl)

/-- C9: with the device and repository collaborators modelled as inputs,
every record placed in the valid bucket or in the questionable bucket has a
valid current version, a valid latest version, and a latest version the
comparison accepts as strictly newer. -/
theorem C9_update_records_validated (get_version : String → Option String)
    (fdroidcl_show : String → FdroidclShow)
    (primary : String → String → PrimaryOutcome)
    (packages : List String) (r : UpdateInfo)
    (h : r ∈ (get_available_updates get_version fdroidcl_show primary packages).1 ∨
      r ∈ (get_available_updates get_version fdroidcl_show primary packages).2) :
    is_valid_version r.current_version = true ∧
      is_valid_version r.latest_version = true ∧
      is_version_newer (primary r.latest_version r.current_version)
        r.latest_version r.current_version = true := by
  have hm := get_updates_mem get_version fdroidcl_show primary packages ([], []) r h
  rcases hm with h1 | h1 | ⟨pkg, q, hp⟩
  · cases h1
  · cases h1
  · exact process_package_sound get_version fdroidcl_show primary pkg r q hp

/-- C9, witness: a concrete one-package run placing
`⟨"a", "1.0", "1.1"⟩` in the valid bucket. -/
theorem C9_witness :
    is_valid_version "1.0" = true ∧ is_valid_version "1.1" = true ∧
      is_version_newer PrimaryOutcome.importError "1.1" "1.0" = true :=
  C9_update_records_validated (fun _ => some "1.0")
    (fun _ => FdroidclShow.ok "Version: 1.1\n")
    (fun _ _ => PrimaryOutcome.importError) ["a"] ⟨"a", "1.0", "1.1"⟩
    (Or.inl (by decide))

/-- C10: the fallback comparison is asymmetric — `compare_versions_semantic`
never reports each of two strings as strictly newer than the other. -/
theorem C10_compare_semantic_asymmetric (x y : String) :
    (compare_versions_semantic x y && compare_versions_semantic y x) = false := by
  rw [compare_semantic_eq_spec x y, compare_semantic_eq_spec y x]
  unfold spec_compare_semantic
  dsimp only
  rw [spec_num_compare_swap (split_version_parts (normalize_version x)).numeric
    (split_version_parts (normalize_version y)).numeric]
  cases h : spec_num_compare (split_version_parts (normalize_version x)).numeric
      (split_version_parts (normalize_version y)).numeric with
  | lt => rfl
  | gt => rfl
  | eq =>
    by_cases h1 : (split_version_parts (normalize_version x)).text = []
    · simp [h1, Ordering.swap]
    · by_cases h2 : (split_version_parts (normalize_version y)).text = []
      · simp [h2, Ordering.swap]
      · simp only [Ordering.swap]
        rw [if_neg (by tauto), if_neg (by tauto)]
        rw [← strs_cmp_gt_iff, ← strs_cmp_gt_iff,
          strs_cmp_swap (split_version_parts (normalize_version x)).text
            (split_version_parts (normalize_version y)).text]
        cases strs_cmp (split_version_parts (normalize_version x)).text
            (split_version_parts (normalize_version y)).text <;> rfl

end Apm
